import Mathlib

/-!
# Lip tracking: verification of `mainwindow.cpp`

Shallow embedding of the two image-analysis routines of `MainWindow`:

* `extractLipsAsBWImg` (lines 98-153): rank threshold on the log-ratio field and
  selection of one connected component;
* `extractPointsOnLipsEdge` (lines 160-224): column scan of the binary image.

OpenCV matrices are modelled by their dimensions and an element accessor.  The
floating-point log-ratio field is abstracted to a list of values of a linear
order (only comparisons are made on it), the threshold coefficient is a rational,
and the outputs of OpenCV's `connectedComponentsWithStats` (label matrix and
statistics table) are inputs of the selection step.
-/

namespace LipTracking

/-! ## Data model -/

/-- Matrix of OpenCV, `cv::Mat`: dimensions and the element read `m.at<T>(row, col)`. -/
structure Mat (α : Type) where
  rows : Nat
  cols : Nat
  px : Nat → Nat → α

/-- Integer point of Qt, `QPoint`. -/
structure QPoint where
  x : Int
  y : Int
deriving DecidableEq

/-- Predicate `QPoint::isNull`: both coordinates are zero. -/
def QPoint.isNull (p : QPoint) : Bool := p.x == 0 && p.y == 0

/-! ## `extractLipsAsBWImg`: rank threshold (lines 118-127) -/

section Threshold

variable {α : Type} [LinearOrder α]

/-- Sorted row vector, `cv::sort(frameVect, frameVect, CV_SORT_ASCENDING)`. -/
def sortAscending (frameVect : List α) : List α :=
  frameVect.insertionSort (fun a b => a ≤ b)

/-- Line 123: `(frameVect.cols - 1) - qFloor(frameVect.cols * thres_coeff)`. -/
def threshIdx (cols : Nat) (thres_coeff : ℚ) : Int :=
  ((cols : Int) - 1) - ⌊(cols : ℚ) * thres_coeff⌋

/-- Line 124: `frameVect.at<float>(0, threshIdx)` on the sorted vector; a read outside
the vector has no result. -/
def thresVal (frameVect : List α) (thres_coeff : ℚ) : Option α :=
  let idx := threshIdx frameVect.length thres_coeff
  if 0 ≤ idx then (sortAscending frameVect)[idx.toNat]? else none

/-- Line 127: `bwFrame > thresVal`, 255 where the comparison holds and 0 elsewhere. -/
def compareGT (bwFrame : List α) (v : α) : List Nat :=
  bwFrame.map (fun x => if v < x then 255 else 0)

/-- Lines 119-127: the intermediate binary image `bwFrameProc` of the flattened frame. -/
def bwFrameProc (bwFrame : List α) (thres_coeff : ℚ) : Option (List Nat) :=
  (thresVal bwFrame thres_coeff).map (compareGT bwFrame)

/-- Number of white pixels of a flattened binary image. -/
def whiteCount (img : List Nat) : Nat := img.count 255

end Threshold

/-! ## `extractLipsAsBWImg`: component selection (lines 136-152) -/

/-- Body of the loop of lines 138-146 for label `i`; the pair is `widerConnComp`,
format (label, numPixels). -/
def selectStep (connCompStats : Mat Int) (w : Nat × Int) (i : Nat) : Nat × Int :=
  let numPixels := connCompStats.px i 4
  if numPixels ≥ w.2 then (i, numPixels) else w

/-- Lines 136-146: `widerConnComp` after the loop `for (i = 1; i < connCompStats.rows; i++)`. -/
def widerConnComp (connCompStats : Mat Int) : Nat × Int :=
  (List.range' 1 (connCompStats.rows - 1)).foldl (selectStep connCompStats) (0, 0)

/-- Line 148: `connCompLabels == widerConnComp[0]`. -/
def bwFrameFiltered (connCompLabels : Mat Nat) (connCompStats : Mat Int) : Mat Nat :=
  { rows := connCompLabels.rows
    cols := connCompLabels.cols
    px := fun r c => if connCompLabels.px r c = (widerConnComp connCompStats).1 then 255 else 0 }

/-! ## `extractPointsOnLipsEdge` (lines 160-224) -/

/-- Variables of one column scan: the two flags, `lowerPoint` and the list
`upperLipPts`. -/
structure ColState where
  upperLipFound : Bool
  lowerLipFound : Bool
  lowerPoint : QPoint
  upperLipPts : List QPoint
deriving DecidableEq

/-- Body of the row loop, lines 180-198. -/
def rowStep (binaryImg : Mat Nat) (colIdx : Nat) (s : ColState) (rowIdx : Nat) : ColState :=
  let pixelIntensity := binaryImg.px rowIdx colIdx
  if pixelIntensity = 255 ∧ s.upperLipFound = false then
    { s with upperLipPts := s.upperLipPts ++ [⟨colIdx, rowIdx⟩], upperLipFound := true }
  else if pixelIntensity = 0 ∧ s.upperLipFound = true ∧ s.lowerLipFound = false then
    { s with lowerPoint := ⟨colIdx, rowIdx⟩, lowerLipFound := true }
  else if s.lowerLipFound = true ∧ pixelIntensity = 255 then
    { s with lowerLipFound := false }
  else s

/-- Row loop of lines 173-199 run over the first `n` rows. -/
def rowScan (binaryImg : Mat Nat) (colIdx : Nat) (upperLipPts : List QPoint) (n : Nat) :
    ColState :=
  (List.range n).foldl (rowStep binaryImg colIdx) ⟨false, false, ⟨0, 0⟩, upperLipPts⟩

/-- Body of the column loop, lines 173-209, on the pair (`upperLipPts`, `lowerLipPts`). -/
def scanColumn (binaryImg : Mat Nat) (colIdx : Nat) (pts : List QPoint × List QPoint) :
    List QPoint × List QPoint :=
  let s := rowScan binaryImg colIdx pts.1 binaryImg.rows
  let lowerLipPts := if s.lowerPoint.isNull = false then s.lowerPoint :: pts.2 else pts.2
  let lowerLipPts :=
    if s.upperLipFound = true ∧ s.lowerLipFound = false then
      ⟨colIdx, (binaryImg.rows : Int) - 1⟩ :: lowerLipPts
    else lowerLipPts
  (s.upperLipPts, lowerLipPts)

/-- Column loop of line 171, `for (colIdx; colIdx < cols; colIdx += numColsPerScan)`,
with a bound on the number of iterations; `none` when the bound is reached. -/
def colLoop (binaryImg : Mat Nat) (numColsPerScan : Nat) :
    Nat → Nat → List QPoint × List QPoint → Option (List QPoint × List QPoint)
  | 0, _, _ => none
  | fuel + 1, colIdx, pts =>
    if colIdx < binaryImg.cols then
      colLoop binaryImg numColsPerScan fuel (colIdx + numColsPerScan)
        (scanColumn binaryImg colIdx pts)
    else some pts

/-- Line 168: `binaryImg.cols / colsDownSampling` with `colsDownSampling = 50`. -/
def numColsPerScan (binaryImg : Mat Nat) : Nat :=
  let colsDownSampling := 50
  binaryImg.cols / colsDownSampling

/-- Function `extractPointsOnLipsEdge`: upper points followed by lower points. -/
def extractPointsOnLipsEdge (fuel : Nat) (binaryImg : Mat Nat) : Option (List QPoint) :=
  (colLoop binaryImg (numColsPerScan binaryImg) fuel 0 ([], [])).map
    (fun pts => pts.1 ++ pts.2)

/-! ## Concrete inputs -/

/-- Four rows, fifty columns, one 8-connected white component: rows 1 and 3 are white,
row 0 is black, row 2 is black except at column 0, where it joins the two bands. -/
def gapToBottomMask : Mat Nat :=
  { rows := 4, cols := 50
    px := fun r c => if r = 1 ∨ r = 3 ∨ (r = 2 ∧ c = 0) then 255 else 0 }

/-- Ten by ten, black except a 3x3 white block at rows 2-4, columns 4-6. -/
def blockMask : Mat Nat :=
  { rows := 10, cols := 10
    px := fun r c => if 2 ≤ r ∧ r ≤ 4 ∧ 4 ≤ c ∧ c ≤ 6 then 255 else 0 }

/-- Five rows, one column: black, white, black, white, black. -/
def gapMask : Mat Nat :=
  { rows := 5, cols := 1, px := fun r _ => if r = 1 ∨ r = 3 then 255 else 0 }

/-- Ten rows, sixty columns: black above row 5, white from row 5 to the bottom row. -/
def bottomBandMask : Mat Nat :=
  { rows := 10, cols := 60, px := fun r _ => if 5 ≤ r then 255 else 0 }

/-- Three rows, sixty columns, white everywhere. -/
def fullWhiteMask : Mat Nat :=
  { rows := 3, cols := 60, px := fun _ _ => 255 }

/-- Flattened 2x2 frame whose log-ratio value is the same at every pixel. -/
def uniformFrame : List Int := [0, 0, 0, 0]

/-- Label matrix of a 2x2 image without foreground: every pixel has label 0. -/
def backgroundOnlyLabels : Mat Nat :=
  { rows := 2, cols := 2, px := fun _ _ => 0 }

/-- Statistics table with the background row only; column 4 is the pixel count. -/
def backgroundOnlyStats : Mat Int :=
  { rows := 1, cols := 5, px := fun i j => if i = 0 ∧ j = 4 then 4 else 0 }

/-- Label matrix of an 8x10 image: label 1 on row 0 (10 pixels), label 2 on rows 2-6
(50 pixels), background elsewhere (20 pixels). -/
def twoBlobLabels : Mat Nat :=
  { rows := 8, cols := 10
    px := fun r _ => if r = 0 then 1 else if 2 ≤ r ∧ r ≤ 6 then 2 else 0 }

/-- Statistics table of the labelling above; column 4 is the pixel count. -/
def twoBlobStats : Mat Int :=
  { rows := 3, cols := 5, px := fun i j => if j = 4 then [20, 10, 50].getD i 0 else 0 }

/-- Statistics table with two components of five pixels each. -/
def tieStats : Mat Int :=
  { rows := 3, cols := 5, px := fun i j => if j = 4 then [20, 5, 5].getD i 0 else 0 }

/-! ## Lemmas on the column scan -/

theorem rowScan_succ (m : Mat Nat) (c : Nat) (U : List QPoint) (n : Nat) :
    rowScan m c U (n + 1) = rowStep m c (rowScan m c U n) n := by
  simp [rowScan, List.range_succ, List.foldl_append]

/-- Rows above the first white pixel leave the scan variables untouched. -/
theorem rowScan_background (m : Mat Nat) (c : Nat) (U : List QPoint) (n : Nat)
    (h : ∀ r, r < n → m.px r c = 0) :
    rowScan m c U n = ⟨false, false, ⟨0, 0⟩, U⟩ := by
  induction n with
  | zero => rfl
  | succ n ih =>
    rw [rowScan_succ, ih (fun r hr => h r (Nat.lt_succ_of_lt hr))]
    simp [rowStep, h n (Nat.lt_succ_self n)]

/-- Scan of a column that is black above row `r` and white from `r` on. -/
theorem rowScan_white_run (m : Mat Nat) (c : Nat) (U : List QPoint) (r n : Nat)
    (habove : ∀ i, i < r → m.px i c = 0)
    (hrun : ∀ i, r ≤ i → i < n → m.px i c = 255) (hn : r < n) :
    rowScan m c U n = ⟨true, false, ⟨0, 0⟩, U ++ [⟨c, r⟩]⟩ := by
  induction n with
  | zero => omega
  | succ n ih =>
    rw [rowScan_succ]
    rcases Nat.lt_or_ge r n with hlt | hge
    · rw [ih (fun i h1 h2 => hrun i h1 (Nat.lt_succ_of_lt h2)) hlt]
      simp [rowStep, hrun n (by omega) (by omega)]
    · have hrn : r = n := by omega
      subst hrn
      rw [rowScan_background m c U r habove]
      simp [rowStep, hrun r (le_refl _) (by omega)]

theorem scanColumn_white_to_bottom (m : Mat Nat) (c r : Nat) (U L : List QPoint)
    (hr : r < m.rows)
    (habove : ∀ i, i < r → m.px i c = 0)
    (hrun : ∀ i, r ≤ i → i < m.rows → m.px i c = 255) :
    scanColumn m c (U, L) = (U ++ [⟨c, r⟩], ⟨c, (m.rows : Int) - 1⟩ :: L) := by
  simp [scanColumn, rowScan_white_run m c U r m.rows habove hrun hr, QPoint.isNull]

/-- Invariant of the row loop below the first white pixel `f` of a column of 0/255:
after a white row the lower flag is down; after a black row it is up and `lowerPoint`
is the first row of the current black run. -/
theorem rowScan_after_first (m : Mat Nat) (c : Nat) (U : List QPoint) (f : Nat)
    (hf : m.px f c = 255) (hfmin : ∀ i, i < f → m.px i c = 0) (n : Nat)
    (hbin : ∀ i, i < n → m.px i c = 0 ∨ m.px i c = 255) (hn : f < n) :
    (rowScan m c U n).upperLipFound = true ∧
    (rowScan m c U n).upperLipPts = U ++ [⟨c, f⟩] ∧
    (m.px (n - 1) c = 255 → (rowScan m c U n).lowerLipFound = false) ∧
    (m.px (n - 1) c = 0 → (rowScan m c U n).lowerLipFound = true ∧
      ∃ j, 0 < j ∧ j < n ∧ (rowScan m c U n).lowerPoint = ⟨c, j⟩ ∧
        m.px (j - 1) c = 255 ∧ ∀ i, j ≤ i → i < n → m.px i c = 0) := by
  induction n with
  | zero => omega
  | succ n ih =>
    rw [rowScan_succ]
    rcases Nat.lt_or_ge f n with hlt | hge
    · obtain ⟨hup, hpts, hw, hb⟩ := ih (fun i hi => hbin i (Nat.lt_succ_of_lt hi)) hlt
      have hprev := hbin (n - 1) (by omega)
      rcases hbin n (Nat.lt_succ_self n) with hp | hp
      · -- black pixel at row n
        cases hlow : (rowScan m c U n).lowerLipFound with
        | false =>
          have hprevw : m.px (n - 1) c = 255 := by
            rcases hprev with h0 | h255
            · have := (hb h0).1; rw [hlow] at this; cases this
            · exact h255
          simp only [rowStep, hp, hup, hlow, Nat.add_sub_cancel]
          simp
          refine ⟨hpts, ⟨n, by omega, by omega, rfl, hprevw, ?_⟩⟩
          intro i h1 h2
          have : i = n := by omega
          rw [this]; exact hp
        | true =>
          have hprevb : m.px (n - 1) c = 0 := by
            rcases hprev with h0 | h255
            · exact h0
            · have := hw h255; rw [hlow] at this; cases this
          obtain ⟨_, j, hj0, hjn, hlp, hjw, hrun⟩ := hb hprevb
          simp only [rowStep, hp, hup, hlow, Nat.add_sub_cancel]
          simp
          refine ⟨hup, hpts, hlow, ⟨j, hj0, by omega, hlp, hjw, ?_⟩⟩
          intro i h1 h2
          rcases Nat.lt_or_ge i n with h3 | h3
          · exact hrun i h1 h3
          · have : i = n := by omega
            rw [this]; exact hp
      · -- white pixel at row n
        cases hlow : (rowScan m c U n).lowerLipFound with
        | false =>
          simp only [rowStep, hp, hup, hlow, Nat.add_sub_cancel]
          simp [hup, hpts, hlow]
        | true =>
          simp only [rowStep, hp, hup, hlow, Nat.add_sub_cancel]
          simp [hup, hpts]
    · have hfn : f = n := by omega
      subst hfn
      rw [rowScan_background m c U f hfmin]
      simp [rowStep, hf]

/-- Scan of a 0/255 column whose first white row is `f`, last white row is `l`, and
whose bottom row is black. -/
theorem scanColumn_last_band (m : Mat Nat) (c f l : Nat) (U L : List QPoint)
    (hbin : ∀ i, i < m.rows → m.px i c = 0 ∨ m.px i c = 255)
    (hf : m.px f c = 255) (hfmin : ∀ i, i < f → m.px i c = 0)
    (hl : l < m.rows) (hlw : m.px l c = 255)
    (hlmax : ∀ i, l < i → i < m.rows → m.px i c = 0)
    (hbot : m.px (m.rows - 1) c = 0) :
    scanColumn m c (U, L) = (U ++ [⟨c, f⟩], ⟨c, (l : Int) + 1⟩ :: L) := by
  have hfl : f ≤ l := by
    by_contra hcon
    have := hfmin l (by omega)
    omega
  obtain ⟨hup, hpts, _, hb⟩ :=
    rowScan_after_first m c U f hf hfmin m.rows hbin (by omega)
  obtain ⟨hlow, j, hj0, hjn, hlp, hjw, hrun⟩ := hb hbot
  have hjl : j = l + 1 := by
    have h1 : ¬ (l < j - 1) := by
      intro hlt
      have := hlmax (j - 1) hlt (by omega)
      omega
    have h2 : ¬ (j ≤ l) := by
      intro hle
      have := hrun l hle hl
      omega
    omega
  simp [scanColumn, hup, hpts, hlow, hlp, QPoint.isNull, hjl]
  omega

/-! ## Lemmas on the rank threshold -/

section ThresholdLemmas

variable {α : Type} [LinearOrder α]

theorem length_sortAscending (l : List α) : (sortAscending l).length = l.length :=
  List.length_insertionSort _ l

/-- Later entries of the sorted vector are not smaller. -/
theorem sortAscending_mono (l : List α) (i j : Nat) (hij : i ≤ j)
    (hj : j < (sortAscending l).length) :
    (sortAscending l)[i] ≤ (sortAscending l)[j] := by
  have hs : (sortAscending l).Sorted (fun a b => a ≤ b) :=
    List.sorted_insertionSort (fun a b => a ≤ b) l
  have := hs.rel_get_of_le (a := ⟨i, by omega⟩) (b := ⟨j, hj⟩) (by simpa using hij)
  simpa using this

/-- The product of the pixel count with a fraction in (0, 1) has its floor in `0 .. cols - 1`. -/
theorem floor_frac_bounds (cols : Nat) (t : ℚ) (hc : 1 ≤ cols) (h0 : 0 < t) (h1 : t < 1) :
    0 ≤ ⌊(cols : ℚ) * t⌋ ∧ ⌊(cols : ℚ) * t⌋ ≤ (cols : Int) - 1 := by
  have hcq : (0 : ℚ) < (cols : ℚ) := by exact_mod_cast hc
  constructor
  · exact Int.floor_nonneg.mpr (le_of_lt (mul_pos hcq h0))
  · have hlt : ⌊(cols : ℚ) * t⌋ < (cols : Int) := by
      rw [Int.floor_lt]
      have : (cols : ℚ) * t < (cols : ℚ) * 1 := mul_lt_mul_of_pos_left h1 hcq
      simpa using this
    omega

theorem threshIdx_range (cols : Nat) (t : ℚ) (hc : 1 ≤ cols) (h0 : 0 < t) (h1 : t < 1) :
    0 ≤ threshIdx cols t ∧ threshIdx cols t < cols := by
  have := floor_frac_bounds cols t hc h0 h1
  unfold threshIdx
  omega

theorem threshIdx_antitone (cols : Nat) (t1 t2 : ℚ) (h : t1 ≤ t2) :
    threshIdx cols t2 ≤ threshIdx cols t1 := by
  have hm : (cols : ℚ) * t1 ≤ (cols : ℚ) * t2 :=
    mul_le_mul_of_nonneg_left h (by exact_mod_cast Nat.zero_le cols)
  have := Int.floor_mono hm
  unfold threshIdx
  omega

/-- With a fraction in (0, 1) and a non-empty frame the threshold read is inside the vector. -/
theorem thresVal_eq (l : List α) (t : ℚ) (hne : l ≠ []) (h0 : 0 < t) (h1 : t < 1) :
    ∃ h : (threshIdx l.length t).toNat < (sortAscending l).length,
      thresVal l t = some ((sortAscending l)[(threshIdx l.length t).toNat]) := by
  have hlen : 1 ≤ l.length := List.length_pos.mpr hne
  obtain ⟨hlo, hhi⟩ := threshIdx_range l.length t hlen h0 h1
  have hlt : (threshIdx l.length t).toNat < (sortAscending l).length := by
    rw [length_sortAscending]; omega
  refine ⟨hlt, ?_⟩
  simp [thresVal, hlo, List.getElem?_eq_getElem hlt]

theorem whiteCount_compareGT (l : List α) (v : α) :
    whiteCount (compareGT l v) = l.countP (fun x => decide (v < x)) := by
  induction l with
  | nil => rfl
  | cons a l ih =>
    simp only [whiteCount, compareGT] at ih ⊢
    by_cases h : v < a
    · simp [List.countP_cons, h, ih]
    · simp [List.countP_cons, h, ih]

theorem whiteCount_compareGT_antitone (l : List α) (v w : α) (h : v ≤ w) :
    whiteCount (compareGT l w) ≤ whiteCount (compareGT l v) := by
  rw [whiteCount_compareGT, whiteCount_compareGT]
  apply List.countP_mono_left
  intro x _ hx
  simp only [decide_eq_true_eq] at hx ⊢
  exact lt_of_le_of_lt h hx

/-- A larger fraction gives a threshold that no fewer pixels exceed. -/
theorem bwFrameProc_mono (bwFrame : List α) (t1 t2 : ℚ) (hne : bwFrame ≠ [])
    (h0 : 0 < t1) (h12 : t1 ≤ t2) (h1 : t2 < 1) :
    ∃ m1 m2, bwFrameProc bwFrame t1 = some m1 ∧ bwFrameProc bwFrame t2 = some m2 ∧
      whiteCount m1 ≤ whiteCount m2 := by
  obtain ⟨hi1, hv1⟩ := thresVal_eq bwFrame t1 hne h0 (lt_of_le_of_lt h12 h1)
  obtain ⟨hi2, hv2⟩ := thresVal_eq bwFrame t2 hne (lt_of_lt_of_le h0 h12) h1
  refine ⟨_, _, by rw [bwFrameProc, hv1]; rfl, by rw [bwFrameProc, hv2]; rfl, ?_⟩
  apply whiteCount_compareGT_antitone
  apply sortAscending_mono
  have := threshIdx_antitone bwFrame.length t1 t2 h12
  omega

end ThresholdLemmas

theorem floor_coeff (N : Nat) : ⌊(N : ℚ) * (18 / 100)⌋ = (9 * (N : Int)) / 50 := by
  have h : (N : ℚ) * (18 / 100) = ((9 * (N : Int) : Int) : ℚ) / ((50 : Nat) : ℚ) := by
    push_cast; ring
  rw [h, Rat.floor_intCast_div_natCast]
  rfl

theorem floor_one_sub_coeff (N : Nat) :
    ⌊(N : ℚ) * (1 - 18 / 100)⌋ = (41 * (N : Int)) / 50 := by
  have h : (N : ℚ) * (1 - 18 / 100) = ((41 * (N : Int) : Int) : ℚ) / ((50 : Nat) : ℚ) := by
    push_cast; ring
  rw [h, Rat.floor_intCast_div_natCast]
  rfl

theorem threshIdx_coeff (N : Nat) : threshIdx N (18 / 100) = (N : Int) - 1 - (9 * (N : Int)) / 50 := by
  rw [threshIdx, floor_coeff]


theorem threshIdx_vs_floor (N : Nat) :
    (¬ 50 ∣ N → threshIdx N (18 / 100) = ⌊(N : ℚ) * (1 - 18 / 100)⌋) ∧
    (50 ∣ N → threshIdx N (18 / 100) = ⌊(N : ℚ) * (1 - 18 / 100)⌋ - 1) := by
  rw [threshIdx_coeff, floor_one_sub_coeff]
  constructor
  · intro h
    have h9 : ¬ (50 ∣ 9 * N) := fun hd =>
      h (Nat.Coprime.dvd_of_dvd_mul_left (by decide : Nat.Coprime 50 9) hd)
    have h9i : (9 * (N : Int)) % 50 ≠ 0 := by omega
    omega
  · intro h; omega

/-! ## Lemmas on the component selection -/

theorem selectStep_take (stats : Mat Int) (w : Nat × Int) (i : Nat)
    (h : stats.px i 4 ≥ w.2) : selectStep stats w i = (i, stats.px i 4) := by
  show (if stats.px i 4 ≥ w.2 then (i, stats.px i 4) else w) = _
  exact if_pos h

theorem selectStep_keep (stats : Mat Int) (w : Nat × Int) (i : Nat)
    (h : ¬ stats.px i 4 ≥ w.2) : selectStep stats w i = w := by
  show (if stats.px i 4 ≥ w.2 then (i, stats.px i 4) else w) = _
  exact if_neg h

/-- Selection loop run over labels `1 .. n`. -/
theorem selectLoop_succ (stats : Mat Int) (n : Nat) :
    (List.range' 1 (n + 1)).foldl (selectStep stats) (0, 0) =
      selectStep stats ((List.range' 1 n).foldl (selectStep stats) (0, 0)) (n + 1) := by
  rw [List.range'_1_concat, List.foldl_append]
  simp [Nat.add_comm]

/-- Invariant of the selection loop after labels `1 .. n` with non-negative counts:
the pair holds a label of `1 .. n` with its count, the count is maximal, and no
higher label of `1 .. n` has the same count. -/
theorem selectLoop_spec (stats : Mat Int) (n : Nat) (hn : 1 ≤ n)
    (hpos : ∀ i, 1 ≤ i → i ≤ n → 0 ≤ stats.px i 4) :
    let w := (List.range' 1 n).foldl (selectStep stats) (0, 0)
    1 ≤ w.1 ∧ w.1 ≤ n ∧ w.2 = stats.px w.1 4 ∧
    (∀ j, 1 ≤ j → j ≤ n → stats.px j 4 ≤ w.2) ∧
    (∀ j, 1 ≤ j → j ≤ n → stats.px j 4 = w.2 → j ≤ w.1) := by
  induction n with
  | zero => omega
  | succ n ih =>
    intro w
    have hw : w = selectStep stats ((List.range' 1 n).foldl (selectStep stats) (0, 0)) (n + 1) :=
      selectLoop_succ stats n
    rcases Nat.eq_zero_or_pos n with h0 | hpos'
    · subst h0
      have h1 := hpos 1 (le_refl _) (le_refl _)
      have hw1 : w = (1, stats.px 1 4) := by
        rw [hw]; exact selectStep_take stats _ 1 h1
      rw [hw1]
      refine ⟨le_refl _, le_refl _, rfl, ?_, ?_⟩
      · intro j hj1 hj2
        have : j = 1 := by omega
        subst this; exact le_refl _
      · intro j hj1 hj2 _
        exact hj2
    · obtain ⟨a1, a2, a3, a4, a5⟩ := ih hpos' (fun i h1 h2 => hpos i h1 (by omega))
      by_cases hge : stats.px (n + 1) 4 ≥
          ((List.range' 1 n).foldl (selectStep stats) (0, 0)).2
      · have hw1 : w = (n + 1, stats.px (n + 1) 4) := by
          rw [hw]; exact selectStep_take stats _ _ hge
        rw [hw1]
        refine ⟨by omega, le_refl _, rfl, ?_, ?_⟩
        · intro j hj1 hj2
          rcases Nat.lt_or_ge j (n + 1) with h | h
          · exact le_trans (a4 j hj1 (by omega)) hge
          · have : j = n + 1 := by omega
            subst this; exact le_refl _
        · intro j _ hj2 _
          exact hj2
      · have hw1 : w = (List.range' 1 n).foldl (selectStep stats) (0, 0) := by
          rw [hw]; exact selectStep_keep stats _ _ hge
        rw [hw1]
        refine ⟨a1, by omega, a3, ?_, ?_⟩
        · intro j hj1 hj2
          rcases Nat.lt_or_ge j (n + 1) with h | h
          · exact a4 j hj1 (by omega)
          · have : j = n + 1 := by omega
            subst this; exact le_of_lt (not_le.mp hge)
        · intro j hj1 hj2 hjeq
          rcases Nat.lt_or_ge j (n + 1) with h | h
          · exact a5 j hj1 (by omega) hjeq
          · have : j = n + 1 := by omega
            subst this
            exact absurd (le_of_eq hjeq.symm) hge

theorem widerConnComp_spec (stats : Mat Int) (k : Nat) (hrows : stats.rows = k + 1)
    (hk : 1 ≤ k) (hpos : ∀ i, 1 ≤ i → i ≤ k → 0 ≤ stats.px i 4) :
    1 ≤ (widerConnComp stats).1 ∧ (widerConnComp stats).1 ≤ k ∧
    (widerConnComp stats).2 = stats.px (widerConnComp stats).1 4 ∧
    (∀ j, 1 ≤ j → j ≤ k → stats.px j 4 ≤ (widerConnComp stats).2) ∧
    (∀ j, 1 ≤ j → j ≤ k → stats.px j 4 = (widerConnComp stats).2 →
      j ≤ (widerConnComp stats).1) := by
  have h := selectLoop_spec stats k hk hpos
  simpa [widerConnComp, hrows] using h

/-! ## Lemmas on the column loop -/

/-- With a zero stride the column index never advances: no bound on the number of
iterations lets the loop finish on an image with at least one column. -/
theorem colLoop_zero_stride (m : Mat Nat) (hcols : 0 < m.cols) :
    ∀ (fuel : Nat) (pts : List QPoint × List QPoint), colLoop m 0 fuel 0 pts = none := by
  intro fuel
  induction fuel with
  | zero => intro pts; rfl
  | succ n ih =>
    intro pts
    simp only [colLoop, hcols, if_true, Nat.add_zero]
    exact ih _

/-- With a positive stride the column loop finishes. -/
theorem colLoop_terminates (m : Mat Nat) (s : Nat) (hs : 1 ≤ s) :
    ∀ (fuel colIdx : Nat) (pts : List QPoint × List QPoint), m.cols - colIdx < fuel →
      ∃ r, colLoop m s fuel colIdx pts = some r := by
  intro fuel
  induction fuel with
  | zero => intro colIdx pts h; omega
  | succ n ih =>
    intro colIdx pts h
    by_cases hc : colIdx < m.cols
    · simp only [colLoop, hc, if_true]
      exact ih _ _ (by omega)
    · exact ⟨pts, by simp only [colLoop, hc, if_false]⟩

/-- On an image at least 50 columns wide the stride is `max 1 (cols / 50)` and
`extractPointsOnLipsEdge` returns. -/
theorem extractPointsOnLipsEdge_terminates (m : Mat Nat) (h : 50 ≤ m.cols) :
    numColsPerScan m = max 1 (m.cols / 50) ∧
    ∃ pts, extractPointsOnLipsEdge (m.cols + 1) m = some pts := by
  have hs : 1 ≤ numColsPerScan m := by
    unfold numColsPerScan
    exact (Nat.le_div_iff_mul_le (by decide)).mpr (by omega)
  constructor
  · have : numColsPerScan m = m.cols / 50 := rfl
    rw [← this]; omega
  · obtain ⟨r, hr⟩ := colLoop_terminates m (numColsPerScan m) hs (m.cols + 1) 0 ([], [])
      (by omega)
    exact ⟨r.1 ++ r.2, by simp [extractPointsOnLipsEdge, hr]⟩

/-! ## Claims -/

/-- Claim C1, component selection: on a statistics table with labels `1 .. k`, `k ≥ 1`,
and non-negative pixel counts, the selected label lies in `1 .. k`, its count is at
least the count of every label of `1 .. k`, and the returned mask is 255 exactly at
the pixels carrying the selected label and 0 elsewhere.  With two components of 10 and
50 pixels, in either label order, the mask is exactly the 50-pixel component. -/
theorem componentSelection_largest (stats : Mat Int) (labels : Mat Nat) (k : Nat)
    (hrows : stats.rows = k + 1) (hk : 1 ≤ k)
    (hpos : ∀ i, 1 ≤ i → i ≤ k → 0 ≤ stats.px i 4) :
    1 ≤ (widerConnComp stats).1 ∧ (widerConnComp stats).1 ≤ k ∧
    (∀ j, 1 ≤ j → j ≤ k → stats.px j 4 ≤ stats.px (widerConnComp stats).1 4) ∧
    (∀ r c, (labels.px r c = (widerConnComp stats).1 →
          (bwFrameFiltered labels stats).px r c = 255) ∧
        (labels.px r c ≠ (widerConnComp stats).1 →
          (bwFrameFiltered labels stats).px r c = 0)) ∧
    (k = 2 → stats.px 1 4 = 10 → stats.px 2 4 = 50 →
      ∀ r c, (bwFrameFiltered labels stats).px r c = if labels.px r c = 2 then 255 else 0) ∧
    (k = 2 → stats.px 1 4 = 50 → stats.px 2 4 = 10 →
      ∀ r c, (bwFrameFiltered labels stats).px r c = if labels.px r c = 1 then 255 else 0) := by
  obtain ⟨h1, h2, h3, h4, _⟩ := widerConnComp_spec stats k hrows hk hpos
  have hmax : ∀ j, 1 ≤ j → j ≤ k → stats.px j 4 ≤ stats.px (widerConnComp stats).1 4 := by
    intro j hj1 hj2
    rw [← h3]; exact h4 j hj1 hj2
  refine ⟨h1, h2, hmax, ?_, ?_, ?_⟩
  · intro r c
    constructor
    · intro h; simp [bwFrameFiltered, h]
    · intro h; simp [bwFrameFiltered, h]
  · intro hk2 ha hb r c
    subst hk2
    have hsel : (widerConnComp stats).1 = 2 := by
      have := hmax 2 (by decide) (le_refl _)
      have h12 : (widerConnComp stats).1 = 1 ∨ (widerConnComp stats).1 = 2 := by omega
      rcases h12 with h | h
      · rw [h, ha, hb] at this; omega
      · exact h
    simp [bwFrameFiltered, hsel]
  · intro hk2 ha hb r c
    subst hk2
    have hsel : (widerConnComp stats).1 = 1 := by
      have := hmax 1 (le_refl _) (by decide)
      have h12 : (widerConnComp stats).1 = 1 ∨ (widerConnComp stats).1 = 2 := by omega
      rcases h12 with h | h
      · exact h
      · rw [h, ha, hb] at this; omega
    simp [bwFrameFiltered, hsel]

theorem twoBlobStats_nonneg : ∀ i, 1 ≤ i → i ≤ 2 → 0 ≤ twoBlobStats.px i 4 := by
  intro i h1 h2
  have : i = 1 ∨ i = 2 := by omega
  rcases this with h | h <;> subst h <;> decide

/-- Instance of claim C1 on the labelling with a 10-pixel and a 50-pixel component. -/
theorem componentSelection_largest_witness :
    twoBlobStats.rows = 2 + 1 ∧ twoBlobStats.px 1 4 = 10 ∧ twoBlobStats.px 2 4 = 50 ∧
    ∀ r c, (bwFrameFiltered twoBlobLabels twoBlobStats).px r c =
      if twoBlobLabels.px r c = 2 then 255 else 0 :=
  ⟨rfl, rfl, rfl,
    (componentSelection_largest twoBlobStats twoBlobLabels 2 rfl (by decide)
      twoBlobStats_nonneg).2.2.2.2.1 rfl rfl rfl⟩

/-- Claim C2, evaluated on a frame without foreground: for a uniform 2x2 frame the
thresholded image has no white pixel; on the labelling with the background label only
the loop selects nothing, label 0 stays selected and the returned mask is 255 at every
pixel, where the claim has 0. -/
theorem degenerate_mask_all_white :
    bwFrameProc uniformFrame (18 / 100) = some [0, 0, 0, 0] ∧
    widerConnComp backgroundOnlyStats = (0, 0) ∧
    ∀ r c, (bwFrameFiltered backgroundOnlyLabels backgroundOnlyStats).px r c = 255 := by
  have hidx : threshIdx 4 (18 / 100) = 3 := by
    have := threshIdx_coeff 4
    simpa using this
  refine ⟨?_, rfl, fun r c => rfl⟩
  have hlen : uniformFrame.length = 4 := rfl
  have hv : thresVal uniformFrame (18 / 100) = some 0 := by
    unfold thresVal
    rw [hlen, hidx]
    rfl
  rw [bwFrameProc, hv]
  rfl

/-- Claim C3 as stated fails: labels 1 and 2 both have the greatest count 5, and the
selected label is 2, not the lowest tied label 1. -/
theorem tieBreak_lowest_label_refuted :
    tieStats.px 1 4 = 5 ∧ tieStats.px 2 4 = 5 ∧
    (∀ j, 1 ≤ j → j ≤ 2 → tieStats.px j 4 ≤ 5) ∧
    (widerConnComp tieStats).1 = 2 ∧ (widerConnComp tieStats).1 ≠ 1 := by
  refine ⟨rfl, rfl, ?_, rfl, by decide⟩
  intro j h1 h2
  have : j = 1 ∨ j = 2 := by omega
  rcases this with h | h <;> subst h <;> decide

/-- Claim C3, amended: when two or more labels of `1 .. k` share the greatest pixel
count, the selected label is the highest label among the tied ones (the last one met
in label order). -/
theorem tieBreak_highest_label (stats : Mat Int) (k a b : Nat)
    (hrows : stats.rows = k + 1)
    (hpos : ∀ i, 1 ≤ i → i ≤ k → 0 ≤ stats.px i 4)
    (ha : 1 ≤ a) (hab : a < b) (hb : b ≤ k)
    (htie : stats.px a 4 = stats.px b 4)
    (hmax : ∀ j, 1 ≤ j → j ≤ k → stats.px j 4 ≤ stats.px a 4) :
    stats.px (widerConnComp stats).1 4 = stats.px a 4 ∧
    (widerConnComp stats).1 ≤ k ∧ a < (widerConnComp stats).1 ∧
    ∀ j, 1 ≤ j → j ≤ k → stats.px j 4 = stats.px a 4 → j ≤ (widerConnComp stats).1 := by
  obtain ⟨h1, h2, h3, h4, h5⟩ := widerConnComp_spec stats k hrows (by omega) hpos
  have heq : stats.px (widerConnComp stats).1 4 = stats.px a 4 :=
    le_antisymm (hmax _ h1 h2) (by rw [← h3]; exact h4 a ha (by omega))
  have hall : ∀ j, 1 ≤ j → j ≤ k → stats.px j 4 = stats.px a 4 →
      j ≤ (widerConnComp stats).1 := by
    intro j hj1 hj2 hj
    exact h5 j hj1 hj2 (by rw [h3, heq, hj])
  exact ⟨heq, h2, lt_of_lt_of_le hab (hall b (by omega) hb htie.symm), hall⟩

theorem tieStats_nonneg : ∀ i, 1 ≤ i → i ≤ 2 → 0 ≤ tieStats.px i 4 := by
  intro i h1 h2
  have : i = 1 ∨ i = 2 := by omega
  rcases this with h | h <;> subst h <;> decide

theorem tieStats_max : ∀ j, 1 ≤ j → j ≤ 2 → tieStats.px j 4 ≤ tieStats.px 1 4 := by
  intro j h1 h2
  have : j = 1 ∨ j = 2 := by omega
  rcases this with h | h <;> subst h <;> decide

/-- Instance of the amended claim C3 on two components of five pixels each. -/
theorem tieBreak_highest_label_witness :
    tieStats.px 1 4 = tieStats.px 2 4 ∧
    tieStats.px (widerConnComp tieStats).1 4 = tieStats.px 1 4 ∧
    (widerConnComp tieStats).1 ≤ 2 ∧ 1 < (widerConnComp tieStats).1 ∧
    ∀ j, 1 ≤ j → j ≤ 2 → tieStats.px j 4 = tieStats.px 1 4 → j ≤ (widerConnComp tieStats).1 :=
  ⟨rfl, tieBreak_highest_label tieStats 2 1 2 rfl tieStats_nonneg (le_refl _) (by decide)
    (le_refl _) rfl tieStats_max⟩

set_option maxRecDepth 100000

/-- Claim C4, evaluated on a 4x50 mask whose columns 1 to 49 read black, white, black,
white: the stride is 1, the bound of the claim is 100, each of these columns yields one
upper and two lower points (the tentative point of the gap and the point of the bottom
row), and 149 points are returned. -/
theorem boundary_count_exceeds_bound :
    numColsPerScan gapToBottomMask = 1 ∧
    2 * ((gapToBottomMask.cols + numColsPerScan gapToBottomMask - 1) /
      numColsPerScan gapToBottomMask) = 100 ∧
    scanColumn gapToBottomMask 1 ([], []) = ([⟨1, 1⟩], [⟨1, 3⟩, ⟨1, 2⟩]) ∧
    (extractPointsOnLipsEdge 51 gapToBottomMask).map List.length = some 149 := by
  refine ⟨rfl, rfl, by decide, by decide⟩

/-- Claim C5, evaluated on a 10x10 mask: the stride is 0, not `max 1 (10 / 50) = 1`,
and the column loop does not finish within any number of iterations. -/
theorem narrow_mask_zero_stride_diverges :
    numColsPerScan blockMask = 0 ∧ max 1 (blockMask.cols / 50) = 1 ∧
    ∀ fuel, extractPointsOnLipsEdge fuel blockMask = none := by
  refine ⟨rfl, rfl, ?_⟩
  intro fuel
  have h0 : numColsPerScan blockMask = 0 := rfl
  simp [extractPointsOnLipsEdge, h0, colLoop_zero_stride blockMask (by decide) fuel]

/-- Claim C6, threshold monotonicity: for a non-empty list of ratio values and
fractions `0 < t1 ≤ t2 < 1` both thresholds are read inside the sorted vector, and the
number of pixels above the threshold of `t1` is at most the number above the threshold
of `t2`. -/
theorem threshold_monotone {α : Type} [LinearOrder α] (bwFrame : List α) (t1 t2 : ℚ)
    (hne : bwFrame ≠ []) (h0 : 0 < t1) (h12 : t1 ≤ t2) (h1 : t2 < 1) :
    ∃ m1 m2, bwFrameProc bwFrame t1 = some m1 ∧ bwFrameProc bwFrame t2 = some m2 ∧
      whiteCount m1 ≤ whiteCount m2 :=
  bwFrameProc_mono bwFrame t1 t2 hne h0 h12 h1

/-- Instance of claim C6 on six ratio values with the fractions 18/100 and 1/2. -/
theorem threshold_monotone_witness :
    ([3, 1, 2, 5, 4, 0] : List Int) ≠ [] ∧ (0 : ℚ) < 18 / 100 ∧
    (18 / 100 : ℚ) ≤ 1 / 2 ∧ (1 / 2 : ℚ) < 1 ∧
    ∃ m1 m2, bwFrameProc ([3, 1, 2, 5, 4, 0] : List Int) (18 / 100) = some m1 ∧
      bwFrameProc ([3, 1, 2, 5, 4, 0] : List Int) (1 / 2) = some m2 ∧
      whiteCount m1 ≤ whiteCount m2 :=
  ⟨by decide, by norm_num, by norm_num, by norm_num,
    threshold_monotone [3, 1, 2, 5, 4, 0] (18 / 100) (1 / 2) (by decide) (by norm_num)
      (by norm_num) (by norm_num)⟩

/-- Claim C7 as stated fails: on the 10x10 mask with a white block at rows 2-4 the
scan of column 5 does not give the lower point (5, 4). -/
theorem blockMask_lower_point_refuted :
    scanColumn blockMask 5 ([], []) ≠ ([⟨5, 2⟩], [⟨5, 4⟩]) := by
  decide

/-- Claim C7, amended: for a 10-row mask whose column 5 is white exactly at rows 2 to
4, the scan of column 5 yields the upper point (5, 2) and the lower point (5, 5), the
first black row below the block, so the curve of this column is [(5,2), (5,5)]. -/
theorem blockScan_lower_point_row5 (m : Mat Nat) (hrows : m.rows = 10)
    (hcol : ∀ r, r < 10 → m.px r 5 = if 2 ≤ r ∧ r ≤ 4 then 255 else 0) :
    scanColumn m 5 ([], []) = ([⟨5, 2⟩], [⟨5, 5⟩]) ∧
    (scanColumn m 5 ([], [])).1 ++ (scanColumn m 5 ([], [])).2 = [⟨5, 2⟩, ⟨5, 5⟩] := by
  have h : scanColumn m 5 ([], []) = ([⟨5, 2⟩], [⟨5, 5⟩]) := by
    have := scanColumn_last_band m 5 2 4 [] []
      (by
        intro i hi
        rw [hrows] at hi
        rw [hcol i hi]
        by_cases h : 2 ≤ i ∧ i ≤ 4
        · right; simp [h]
        · left; simp [h])
      (by rw [hcol 2 (by decide)]; simp)
      (by intro i hi; rw [hcol i (by omega)]; simp; omega)
      (by omega)
      (by rw [hcol 4 (by decide)]; simp)
      (by intro i h1 h2; rw [hrows] at h2; rw [hcol i h2]; simp; omega)
      (by rw [hrows, hcol 9 (by decide)]; simp)
    simpa using this
  exact ⟨h, by rw [h]; rfl⟩

/-- Instance of the amended claim C7 on the 10x10 mask with the 3x3 block. -/
theorem blockScan_lower_point_row5_witness :
    blockMask.rows = 10 ∧ scanColumn blockMask 5 ([], []) = ([⟨5, 2⟩], [⟨5, 5⟩]) :=
  ⟨rfl, (blockScan_lower_point_row5 blockMask rfl (by
      intro r hr
      show (if 2 ≤ r ∧ r ≤ 4 ∧ 4 ≤ 5 ∧ 5 ≤ 6 then 255 else 0) = _
      simp)).1⟩

/-- Claim C8 as stated fails: for the 320x240 frame the index read by the code is
62975, while `floor (76800 * (1 - 18/100))` is 62976. -/
theorem cutoff_canonical_refuted :
    threshIdx 76800 (18 / 100) = 62975 ∧
    ⌊((76800 : Nat) : ℚ) * (1 - 18 / 100)⌋ = 62976 ∧
    threshIdx 76800 (18 / 100) ≠ ⌊((76800 : Nat) : ℚ) * (1 - 18 / 100)⌋ := by
  have h1 : threshIdx 76800 (18 / 100) = 62975 := by
    have := threshIdx_coeff 76800
    rw [this]; norm_num
  have h2 : ⌊((76800 : Nat) : ℚ) * (1 - 18 / 100)⌋ = 62976 := by
    rw [floor_one_sub_coeff]; norm_num
  refine ⟨h1, h2, ?_⟩
  rw [h1, h2]; decide

/-- Claim C8, amended: for `N ≥ 1` pixels and the fraction 18/100 the index read in the
sorted vector is `(N - 1) - floor (N * 18/100)`; it lies in `0 .. N - 1`, equals
`floor (N * (1 - 18/100))` when 50 does not divide `N` and is one less when 50 divides
`N`; for `N = 76800` it is 62975. -/
theorem cutoff_rank (N : Nat) (hN : 1 ≤ N) :
    threshIdx N (18 / 100) = ((N : Int) - 1) - ⌊(N : ℚ) * (18 / 100)⌋ ∧
    0 ≤ threshIdx N (18 / 100) ∧ threshIdx N (18 / 100) < N ∧
    (¬ 50 ∣ N → threshIdx N (18 / 100) = ⌊(N : ℚ) * (1 - 18 / 100)⌋) ∧
    (50 ∣ N → threshIdx N (18 / 100) = ⌊(N : ℚ) * (1 - 18 / 100)⌋ - 1) ∧
    (N = 76800 → threshIdx N (18 / 100) = 62975) := by
  obtain ⟨hlo, hhi⟩ := threshIdx_range N (18 / 100) hN (by norm_num) (by norm_num)
  obtain ⟨hnd, hd⟩ := threshIdx_vs_floor N
  refine ⟨rfl, hlo, hhi, hnd, hd, ?_⟩
  intro h
  subst h
  have := threshIdx_coeff 76800
  rw [this]; norm_num

/-- Instance of the amended claim C8 at the 320x240 frame. -/
theorem cutoff_rank_witness :
    1 ≤ 76800 ∧ 50 ∣ 76800 ∧ threshIdx 76800 (18 / 100) = 62975 :=
  ⟨by decide, by decide, (cutoff_rank 76800 (by decide)).2.2.2.2.2 rfl⟩

/-- Claim C9, gap handling: for a column of 0/255 pixels with first white row `f`, last
white row `l` and a black bottom row, whatever lies between `f` and `l`, the column
contributes exactly one upper point, at row `f`, and exactly one lower point, at row
`l + 1`, the first black row after the last white row. -/
theorem gap_handling_last_transition (m : Mat Nat) (c f l : Nat)
    (upperLipPts lowerLipPts : List QPoint)
    (hbin : ∀ i, i < m.rows → m.px i c = 0 ∨ m.px i c = 255)
    (hf : m.px f c = 255) (hfmin : ∀ i, i < f → m.px i c = 0)
    (hl : l < m.rows) (hlw : m.px l c = 255)
    (hlmax : ∀ i, l < i → i < m.rows → m.px i c = 0)
    (hbot : m.px (m.rows - 1) c = 0) :
    scanColumn m c (upperLipPts, lowerLipPts) =
      (upperLipPts ++ [⟨c, f⟩], ⟨c, (l : Int) + 1⟩ :: lowerLipPts) :=
  scanColumn_last_band m c f l upperLipPts lowerLipPts hbin hf hfmin hl hlw hlmax hbot

/-- Instance of claim C9 on the column black, white, black, white, black: the upper
point is at row 1 and the lower point at row 4, not at the internal gap of row 2. -/
theorem gap_handling_last_transition_witness :
    scanColumn gapMask 0 ([], []) = ([] ++ [⟨0, 1⟩], [⟨0, (3 : Int) + 1⟩]) :=
  gap_handling_last_transition gapMask 0 1 3 [] []
    (by
      intro i _
      show (if i = 1 ∨ i = 3 then 255 else 0) = 0 ∨ (if i = 1 ∨ i = 3 then 255 else 0) = 255
      by_cases h : i = 1 ∨ i = 3
      · right; simp [h]
      · left; simp [h])
    rfl
    (by
      intro i hi
      show (if i = 1 ∨ i = 3 then 255 else 0) = 0
      have : ¬ (i = 1 ∨ i = 3) := by omega
      simp [this])
    (by decide) rfl
    (by
      intro i h1 h2
      show (if i = 1 ∨ i = 3 then 255 else 0) = 0
      have : ¬ (i = 1 ∨ i = 3) := by omega
      simp [this])
    rfl

/-- Claim C10, bottom-edge synthesis: for a mask of height `h ≥ 1`, a column `c` and a
row `r < h` such that the column is black above `r` and white from `r` to `h - 1`, the
column contributes exactly two points, the upper point `(c, r)` and the lower point
`(c, h - 1)`; `r = 0` is included. -/
theorem bottom_edge_synthesis (m : Mat Nat) (c r : Nat)
    (upperLipPts lowerLipPts : List QPoint)
    (hr : r < m.rows)
    (habove : ∀ i, i < r → m.px i c = 0)
    (hrun : ∀ i, r ≤ i → i < m.rows → m.px i c = 255) :
    scanColumn m c (upperLipPts, lowerLipPts) =
      (upperLipPts ++ [⟨c, r⟩], ⟨c, (m.rows : Int) - 1⟩ :: lowerLipPts) :=
  scanColumn_white_to_bottom m c r upperLipPts lowerLipPts hr habove hrun

/-- Instances of claim C10: white from row 5 to the bottom row of a 10-row mask, and
white from row 0 to the bottom row of a 3-row mask. -/
theorem bottom_edge_synthesis_witness :
    scanColumn bottomBandMask 6 ([], []) = ([] ++ [⟨6, 5⟩], [⟨6, (10 : Int) - 1⟩]) ∧
    scanColumn fullWhiteMask 0 ([], []) = ([] ++ [⟨0, 0⟩], [⟨0, (3 : Int) - 1⟩]) :=
  ⟨bottom_edge_synthesis bottomBandMask 6 5 [] [] (by decide)
      (by
        intro i hi
        show (if 5 ≤ i then 255 else 0) = 0
        have : ¬ (5 ≤ i) := by omega
        simp [this])
      (by
        intro i hi _
        show (if 5 ≤ i then 255 else 0) = 255
        simp [hi]),
    bottom_edge_synthesis fullWhiteMask 0 0 [] [] (by decide)
      (by intro i hi; omega)
      (by intro i _ _; rfl)⟩
end LipTracking
